import Mathlib

set_option maxRecDepth 40000

/-!
Verification of the kiket Go SDK's two cryptographic verifiers: the webhook
HMAC authenticator (kiket/auth.go) and the content-hash / Merkle proof
verifier (the audit client file). Go strings and byte slices are modelled as
lists of byte values (Nat, each below 256); machine arithmetic is modelled
over Nat and Int with explicit reduction modulo powers of two where the Go
code can overflow.
-/

namespace KiketSDK

/-- A Go string or byte slice: a list of byte values. Go strings are
arbitrary byte strings, so a list of Nat (each under 256) is the faithful
model; ASCII literals are injected with strToBytes. -/
abbrev GoStr := List Nat

/-- Bytes of an ASCII Lean string literal, used for the concrete constants
appearing in the source (header names, hex alphabets, and so on). -/
def strToBytes (s : String) : GoStr := s.data.map Char.toNat

/-! ## Hex encoding and decoding (Go encoding/hex) -/

/-- Value of one hex digit byte, as Go fromHexChar: digits, lowercase and
uppercase letters are accepted; anything else is an error. -/
def hexVal (b : Nat) : Option Nat :=
  if 48 ≤ b ∧ b ≤ 57 then some (b - 48)
  else if 97 ≤ b ∧ b ≤ 102 then some (b - 97 + 10)
  else if 65 ≤ b ∧ b ≤ 70 then some (b - 65 + 10)
  else none

/-- Go hex.DecodeString: decodes byte pairs left to right and, on the first
invalid character or a dangling odd character, returns the bytes decoded so
far (the error return is discarded by the callers modelled here). -/
def hexDecode : GoStr → List Nat
  | a :: b :: rest =>
    match hexVal a, hexVal b with
    | some x, some y => (x * 16 + y) :: hexDecode rest
    | _, _ => []
  | _ => []

/-- Lowercase hex digit byte for a value under 16 (Go hex alphabet). -/
def hexDigit (n : Nat) : Nat := if n < 10 then 48 + n else 87 + n

/-- Go hex.EncodeToString: two lowercase hex digit bytes per input byte. -/
def hexEncode : List Nat → GoStr
  | [] => []
  | b :: rest => hexDigit (b / 16) :: hexDigit (b % 16) :: hexEncode rest

/-! ## SHA-256 (Go crypto/sha256), over Nat with explicit mod 2^32 -/

/-- Reduce to a 32-bit word. -/
def u32 (x : Nat) : Nat := x % 4294967296

/-- Right rotation of a 32-bit word by n bits. -/
def rotr (n x : Nat) : Nat := u32 ((x >>> n) ||| (x <<< (32 - n)))

/-- SHA-256 big sigma 0. -/
def bSig0 (x : Nat) : Nat := (rotr 2 x) ^^^ (rotr 13 x) ^^^ (rotr 22 x)

/-- SHA-256 big sigma 1. -/
def bSig1 (x : Nat) : Nat := (rotr 6 x) ^^^ (rotr 11 x) ^^^ (rotr 25 x)

/-- SHA-256 small sigma 0. -/
def sSig0 (x : Nat) : Nat := (rotr 7 x) ^^^ (rotr 18 x) ^^^ (x >>> 3)

/-- SHA-256 small sigma 1. -/
def sSig1 (x : Nat) : Nat := (rotr 17 x) ^^^ (rotr 19 x) ^^^ (x >>> 10)

/-- SHA-256 choice function. -/
def chF (x y z : Nat) : Nat := (x &&& y) ^^^ ((x ^^^ 4294967295) &&& z)

/-- SHA-256 majority function. -/
def majF (x y z : Nat) : Nat := (x &&& y) ^^^ (x &&& z) ^^^ (y &&& z)

/-- The 64 SHA-256 round constants. -/
def K256 : List Nat :=
  [1116352408, 1899447441, 3049323471, 3921009573, 961987163,
   1508970993, 2453635748, 2870763221, 3624381080, 310598401,
   607225278, 1426881987, 1925078388, 2162078206, 2614888103,
   3248222580, 3835390401, 4022224774, 264347078, 604807628,
   770255983, 1249150122, 1555081692, 1996064986, 2554220882,
   2821834349, 2952996808, 3210313671, 3336571891, 3584528711,
   113926993, 338241895, 666307205, 773529912, 1294757372,
   1396182291, 1695183700, 1986661051, 2177026350, 2456956037,
   2730485921, 2820302411, 3259730800, 3345764771, 3516065817,
   3600352804, 4094571909, 275423344, 430227734, 506948616,
   659060556, 883997877, 958139571, 1322822218, 1537002063,
   1747873779, 1955562222, 2024104815, 2227730452, 2361852424,
   2428436474, 2756734187, 3204031479, 3329325298]

/-- The SHA-256 initial hash state. -/
def H256 : List Nat :=
  [1779033703, 3144134277, 1013904242, 2773480762, 1359893119,
   2600822924, 528734635, 1541459225]

/-- Big-endian 8-byte encoding of a 64-bit length value. -/
def be64 (n : Nat) : List Nat :=
  [(n >>> 56) % 256, (n >>> 48) % 256, (n >>> 40) % 256, (n >>> 32) % 256,
   (n >>> 24) % 256, (n >>> 16) % 256, (n >>> 8) % 256, n % 256]

/-- Big-endian 4-byte encoding of a 32-bit word. -/
def be32 (n : Nat) : List Nat :=
  [(n >>> 24) % 256, (n >>> 16) % 256, (n >>> 8) % 256, n % 256]

/-- SHA-256 padding: a 0x80 byte, zeros up to 56 mod 64, then the bit length
as 8 big-endian bytes. -/
def shaPad (ms : List Nat) : List Nat :=
  let L := ms.length
  ms ++ 128 :: List.replicate ((119 - L % 64) % 64) 0 ++ be64 ((8 * L) % 18446744073709551616)

/-- Group bytes four at a time into big-endian 32-bit words. -/
def bytesToWords : List Nat → List Nat
  | a :: b :: c :: d :: rest => (a <<< 24 ||| b <<< 16 ||| c <<< 8 ||| d) :: bytesToWords rest
  | _ => []

/-- Extend the 16 block words with n further schedule words; the accumulator
holds the words produced so far in reverse order. -/
def extendWords : Nat → List Nat → List Nat
  | 0, acc => acc
  | n + 1, acc =>
    extendWords n
      (u32 (sSig1 (acc.getD 1 0) + acc.getD 6 0 + sSig0 (acc.getD 14 0) + acc.getD 15 0) :: acc)

/-- The 64-word message schedule of one block. -/
def schedule (block : List Nat) : List Nat :=
  (extendWords 48 (bytesToWords block).reverse).reverse

/-- One SHA-256 compression round; the state is the eight working variables. -/
def shaRound (st : List Nat) (kw : Nat × Nat) : List Nat :=
  match st with
  | [a, b, c, d, e, f, g, h] =>
    let t1 := u32 (h + bSig1 e + chF e f g + kw.1 + kw.2)
    let t2 := u32 (bSig0 a + majF a b c)
    [u32 (t1 + t2), a, b, c, u32 (d + t1), e, f, g]
  | other => other

/-- Compress one 64-byte block into the hash state. -/
def compressBlock (st : List Nat) (block : List Nat) : List Nat :=
  let out := (K256.zip (schedule block)).foldl shaRound st
  List.zipWith (fun x y => u32 (x + y)) st out

/-- Split a padded message into 64-byte blocks; the fuel argument bounds the
recursion so the definition stays structurally recursive. -/
def chunks64 : Nat → List Nat → List (List Nat)
  | 0, _ => []
  | _, [] => []
  | fuel + 1, l => l.take 64 :: chunks64 fuel (l.drop 64)

/-- SHA-256 of a byte string: pad, compress each block, and emit the final
state words big-endian. -/
def sha256 (ms : List Nat) : List Nat :=
  let padded := shaPad ms
  (((chunks64 padded.length padded).foldl compressBlock H256).map be32).flatten

/-! ## Byte comparison (Go bytes.Compare / bytes.Equal) -/

/-- Go bytes.Compare: lexicographic byte comparison returning -1, 0 or 1. -/
def compareBytes : List Nat → List Nat → Int
  | [], [] => 0
  | [], _ :: _ => -1
  | _ :: _, [] => 1
  | a :: as, b :: bs => if a < b then -1 else if b < a then 1 else compareBytes as bs

/-! ## The Merkle proof verifier (audit client) -/

/-- normalizeHash from the audit client: strip a leading literal 0x, then
hex-decode, silently keeping only the longest decodable prefix (the error
from hex.DecodeString is discarded). -/
def normalizeHash (h : GoStr) : List Nat :=
  let h := if 2 ≤ h.length ∧ h.take 2 = [48, 120] then h.drop 2 else h
  hexDecode h

/-- hashPair from the audit client: sort the two operands by raw byte value,
concatenate, and take SHA-256. -/
def hashPair (left right : List Nat) : List Nat :=
  if compareBytes left right > 0 then sha256 (right ++ left) else sha256 (left ++ right)

/-- One iteration of the VerifyProofLocally loop: combine the running hash
with the next sibling, choosing the operand order from the index parity, and
halve the index. Go's int division and remainder truncate toward zero, hence
Int.tdiv and Int.tmod. -/
def proofStep (st : List Nat × Int) (siblingHex : GoStr) : List Nat × Int :=
  let sibling := normalizeHash siblingHex
  let current := if Int.tmod st.2 2 == 0 then hashPair st.1 sibling else hashPair sibling st.1
  (current, Int.tdiv st.2 2)

/-- VerifyProofLocally from the audit client: fold the proof path over the
normalized content hash and compare with the normalized root. -/
def VerifyProofLocally (contentHash : GoStr) (proofPath : List GoStr) (leafIndex : Int)
    (merkleRoot : GoStr) : Bool :=
  let final := proofPath.foldl proofStep (normalizeHash contentHash, leafIndex)
  final.1 == normalizeHash merkleRoot

/-! ## The webhook authenticator (kiket/auth.go) -/

/-- Decimal value of a digit string, exactly the accumulation Go strconv
performs while parsing base-10 digits. -/
def digitsVal (ds : GoStr) : Nat :=
  ds.foldl (fun acc b => acc * 10 + (b - 48)) 0

/-- Shared tail of Go strconv.ParseInt (base 10, bit size 64) after the sign
has been consumed: the digit run must be nonempty and all decimal digits,
and the magnitude must fit a signed 64-bit integer, otherwise the error
return is non-nil, which VerifySignature treats as invalid. -/
def parseDigitsSigned (neg : Bool) (digits : GoStr) : Option Int :=
  if digits = [] then none
  else if digits.all (fun b => 48 ≤ b && b ≤ 57) then
    let v := digitsVal digits
    if neg then (if v ≤ 9223372036854775808 then some (-(v : Int)) else none)
    else (if v ≤ 9223372036854775807 then some ((v : Int)) else none)
  else none

/-- Go strconv.ParseInt(s, 10, 64): optional leading plus or minus sign,
then decimal digits, with a signed 64-bit range check. The none result
stands for a non-nil error. -/
def parseIntGo (s : GoStr) : Option Int :=
  match s with
  | [] => none
  | c :: rest =>
    if c = 45 then parseDigitsSigned true rest
    else if c = 43 then parseDigitsSigned false rest
    else parseDigitsSigned false s

/-- Digits of n in base 10, most significant first; the fuel argument keeps
the recursion structural and is always sufficient when it exceeds n. -/
def formatNatAux : Nat → Nat → GoStr
  | 0, _ => []
  | fuel + 1, n => if n < 10 then [48 + n] else formatNatAux fuel (n / 10) ++ [48 + n % 10]

/-- Decimal digit string of a natural number. -/
def formatNat (n : Nat) : GoStr := formatNatAux (n + 1) n

/-- Go strconv.FormatInt(t, 10): decimal digits, preceded by a minus sign
for negative values. -/
def formatInt (t : Int) : GoStr :=
  if t < 0 then 45 :: formatNat t.natAbs else formatNat t.toNat

/-- HMAC-SHA256 as Go crypto/hmac instantiates it with crypto/sha256: a key
longer than the 64-byte block is first hashed, the key is zero-padded to the
block size, and the digest is sha256(opad-key || sha256(ipad-key || msg)). -/
def hmacSha256 (key msg : List Nat) : List Nat :=
  let key := if key.length > 64 then sha256 key else key
  let key := key ++ List.replicate (64 - key.length) 0
  let okey := key.map (fun b => b ^^^ 92)
  let ikey := key.map (fun b => b ^^^ 54)
  sha256 (okey ++ sha256 (ikey ++ msg))

/-- Go crypto/subtle ConstantTimeCompare: 0 when the lengths differ,
otherwise 1 exactly when the accumulated or of the bytewise xors is zero.
The timing behaviour itself is outside the model; the returned value is
what VerifySignature branches on. -/
def constantTimeCompare (x y : List Nat) : Nat :=
  if x.length ≠ y.length then 0
  else if (List.zipWith Nat.xor x y).foldl Nat.lor 0 = 0 then 1 else 0

/-- AuthenticationError from kiket/auth.go: a single error type whose only
field is a human-readable message string. -/
structure AuthenticationError where
  message : String
deriving DecidableEq

instance : DecidableEq (Except AuthenticationError Unit) := fun x y =>
  match x, y with
  | .ok (), .ok () => isTrue rfl
  | .error e1, .error e2 =>
    if h : e1 = e2 then isTrue (by rw [h]) else
      isFalse (by intro hc; injection hc; contradiction)
  | .ok _, .error _ => isFalse (by intro hc; exact Except.noConfusion hc)
  | .error _, .ok _ => isFalse (by intro hc; exact Except.noConfusion hc)

/-- Headers from kiket/types.go is a plain Go map from string to string;
indexing a missing key yields the zero value, the empty string, so the map
is modelled as a total function defaulting to the empty byte string. -/
abbrev Headers := String → GoStr

/-- A headers value built from explicit entries, as a Go map literal with
distinct keys. -/
def headersOf (entries : List (String × GoStr)) : Headers :=
  fun k => (((entries.find? (fun p => p.1 == k)).map Prod.snd).getD [])

/-- The two-step header fetch in VerifySignature: read the canonical name
and fall back to the all-lowercase name when the first read is empty. -/
def headerLookup (headers : Headers) (canonical lower : String) : GoStr :=
  if headers canonical = [] then headers lower else headers canonical

/-- Wrap an integer into the signed 64-bit range, modelling Go int64
subtraction overflow. -/
def int64Wrap (z : Int) : Int :=
  (z + 9223372036854775808) % 18446744073709551616 - 9223372036854775808

/-- VerifySignature from kiket/auth.go. The wall clock read time.Now().Unix()
is passed explicitly as now. The Go code computes the time difference as
math.Abs over the float64 of an int64 subtraction and compares it with 300;
for every int64 difference d the comparison float64(d) greater-than 300
agrees with the integer comparison natAbs d greater-than 300 (conversion to
float64 is exact below 2 to the 53 and rounds to a value far above 300
beyond it), so the difference is modelled as Int.natAbs of the wrapped
subtraction. The diagnostic message formats that difference with percent
dot-zero f, which prints the integer value exactly in the ranges any
theorem below touches. -/
def VerifySignature (secret body : GoStr) (headers : Headers) (now : Int) :
    Except AuthenticationError Unit :=
  if secret = [] then .error ⟨"webhook secret not configured"⟩
  else
    let signature := headerLookup headers "X-Kiket-Signature" "x-kiket-signature"
    if signature = [] then .error ⟨"missing X-Kiket-Signature header"⟩
    else
      let timestamp := headerLookup headers "X-Kiket-Timestamp" "x-kiket-timestamp"
      if timestamp = [] then .error ⟨"missing X-Kiket-Timestamp header"⟩
      else
        match parseIntGo timestamp with
        | none => .error ⟨"invalid X-Kiket-Timestamp header"⟩
        | some requestTime =>
          let timeDiff : Nat := (int64Wrap (now - requestTime)).natAbs
          if timeDiff > 300 then
            .error ⟨"request timestamp too old or too far in future: " ++ toString timeDiff ++ "s"⟩
          else
            let payload := timestamp ++ [46] ++ body
            let expectedSignature := hexEncode (hmacSha256 secret payload)
            if constantTimeCompare signature expectedSignature ≠ 1 then
              .error ⟨"invalid signature"⟩
            else .ok ()

/-- GenerateSignature from kiket/auth.go: format the explicit timestamp, or
the current time when none is given, and return the lowercase hex HMAC of
timestamp dot body together with the timestamp string. -/
def GenerateSignature (secret body : GoStr) (timestamp : Option Int) (now : Int) :
    GoStr × GoStr :=
  let tsVal := match timestamp with | some t => t | none => now
  let tsStr := formatInt tsVal
  let payload := tsStr ++ [46] ++ body
  (hexEncode (hmacSha256 secret payload), tsStr)

/-- The expected signature VerifySignature computes for given inputs: the
lowercase hex HMAC-SHA256 over the received timestamp string, a dot, and the
raw body. -/
def expectedSignatureFor (secret body : GoStr) (headers : Headers) : GoStr :=
  hexEncode (hmacSha256 secret
    (headerLookup headers "X-Kiket-Timestamp" "x-kiket-timestamp" ++ [46] ++ body))

/-- A concrete headers bag carrying a valid signature for the secret s, the
empty body, and the timestamp string 0, used as input for witnesses. -/
def validHeaders : Headers :=
  headersOf
    [("X-Kiket-Signature", hexEncode (hmacSha256 [115] (strToBytes "0" ++ [46] ++ []))),
     ("X-Kiket-Timestamp", strToBytes "0")]

/-- A concrete headers bag whose timestamp string 9x is not decimal, used as
input for witnesses. -/
def invalidTsHeaders : Headers :=
  headersOf [("x-kiket-signature", strToBytes "aa"), ("x-kiket-timestamp", strToBytes "9x")]

/-! ## The canonical content hash (audit client ComputeContentHash) -/

/-- A JSON-marshalable Go value held in a map of string to interface: null,
booleans, integers, strings, arrays, and nested objects. Floating point
values are outside the model. -/
inductive Json where
  | null : Json
  | bool (b : Bool) : Json
  | num (n : Int) : Json
  | str (s : GoStr) : Json
  | arr (xs : List Json) : Json
  | obj (fields : List (GoStr × Json)) : Json

/-- Byte-order comparison as a relation: the order sort.Strings uses, since
Go compares strings bytewise. -/
def byteLe (a b : GoStr) : Prop := compareBytes a b ≤ 0

instance : DecidableRel byteLe := fun a b =>
  inferInstanceAs (Decidable (compareBytes a b ≤ 0))

/-- Indexing the Go map represented by an association list with unique keys. -/
def lookupGo (k : GoStr) (data : List (GoStr × Json)) : Json :=
  (((data.find? (fun p => p.1 == k)).map Prod.snd).getD Json.null)

/-- One byte of the encoding/json string escaper: quote, backslash and
control bytes are escaped, and the ampersand and angle brackets are HTML
escaped as Go does by default; everything else passes through. -/
def escByte (b : Nat) : GoStr :=
  if b = 34 then [92, 34]
  else if b = 92 then [92, 92]
  else if b = 10 then [92, 110]
  else if b = 13 then [92, 114]
  else if b = 9 then [92, 116]
  else if b < 32 ∨ b = 38 ∨ b = 60 ∨ b = 62 then
    strToBytes "\\u00" ++ [hexDigit (b / 16), hexDigit (b % 16)]
  else [b]

/-- The encoding/json string escaper over a byte string. -/
def jsonEscape (s : GoStr) : GoStr := (s.map escByte).flatten

mutual

/-- Canonical serialization of a value, as encoding/json produces it for the
map ComputeContentHash marshals: object fields are emitted in stored order
(the caller stores them sorted; nested-object key order is a boundary of the
canonicalization guarantee and is kept as stored here). Byte 34 is the
quote, 44 the comma, 58 the colon, 91 and 93 the square brackets, 123 and
125 the curly brackets. -/
def jsonMarshal : Json → GoStr
  | .null => strToBytes "null"
  | .bool true => strToBytes "true"
  | .bool false => strToBytes "false"
  | .num n => formatInt n
  | .str s => 34 :: jsonEscape s ++ [34]
  | .arr xs => 91 :: jsonMarshalElems xs ++ [93]
  | .obj fs => 123 :: jsonMarshalFields fs ++ [125]

/-- Comma-separated serialization of array elements. -/
def jsonMarshalElems : List Json → GoStr
  | [] => []
  | [x] => jsonMarshal x
  | x :: y :: xs => jsonMarshal x ++ [44] ++ jsonMarshalElems (y :: xs)

/-- Comma-separated serialization of quoted key, colon, value fields. -/
def jsonMarshalFields : List (GoStr × Json) → GoStr
  | [] => []
  | [(k, v)] => 34 :: jsonEscape k ++ [34, 58] ++ jsonMarshal v
  | (k, v) :: f :: fs =>
    34 :: jsonEscape k ++ [34, 58] ++ jsonMarshal v ++ [44] ++ jsonMarshalFields (f :: fs)

end

/-- ComputeContentHash from the audit client: collect the top-level keys,
sort them (sort.Strings sorts bytewise), rebuild the mapping in sorted
order, marshal it canonically, hash with SHA-256, and return 0x plus
lowercase hex. Go's json.Marshal sorts map keys itself, so marshalling the
already sorted association list in stored order reproduces its output. -/
def ComputeContentHash (data : List (GoStr × Json)) : GoStr :=
  let keys := List.insertionSort byteLe (data.map Prod.fst)
  let sorted := keys.map (fun k => (k, lookupGo k data))
  [48, 120] ++ hexEncode (sha256 (jsonMarshal (Json.obj sorted)))

/-! ## Lemmas about byte comparison and the pairwise combine -/

theorem compareBytes_swap (l : List Nat) : ∀ r, compareBytes r l = -compareBytes l r := by
  induction l with
  | nil => intro r; cases r <;> simp [compareBytes]
  | cons a as ih =>
    intro r
    cases r with
    | nil => simp [compareBytes]
    | cons b bs =>
      simp only [compareBytes]
      split_ifs <;> first | omega | exact ih bs

theorem compareBytes_eq_zero_iff (l : List Nat) : ∀ r, compareBytes l r = 0 ↔ l = r := by
  induction l with
  | nil => intro r; cases r <;> simp [compareBytes]
  | cons a as ih =>
    intro r
    cases r with
    | nil => simp [compareBytes]
    | cons b bs =>
      simp only [compareBytes]
      rcases Nat.lt_trichotomy a b with h | h | h
      · rw [if_pos h]
        apply iff_of_false (by omega)
        intro hc
        injection hc with hab _
        omega
      · subst h
        rw [if_neg (by omega), if_neg (by omega)]
        simp [ih bs]
      · rw [if_neg (by omega), if_pos h]
        apply iff_of_false (by omega)
        intro hc
        injection hc with hab _
        omega

/-- The sorted pairwise combine is commutative: sorting the operands by raw
byte value before concatenating makes the operand order irrelevant. -/
theorem hashPair_comm (l r : List Nat) : hashPair l r = hashPair r l := by
  unfold hashPair
  rcases lt_trichotomy (compareBytes l r) 0 with h | h | h
  · have h' : compareBytes r l > 0 := by rw [compareBytes_swap]; omega
    rw [if_neg (by omega), if_pos h']
  · have he : l = r := (compareBytes_eq_zero_iff l r).1 h
    subst he; rfl
  · have h' : ¬ compareBytes r l > 0 := by rw [compareBytes_swap]; omega
    rw [if_pos h, if_neg h']

/-- One loop iteration produces the same running hash whatever the index
parity is, because the combine is commutative. -/
theorem proofStep_fst (cur : List Nat) (k : Int) (s : GoStr) :
    proofStep (cur, k) s = (hashPair cur (normalizeHash s), Int.tdiv k 2) := by
  unfold proofStep
  dsimp only
  by_cases h : (Int.tmod k 2 == 0) = true
  · rw [if_pos h]
  · rw [if_neg h, hashPair_comm]

theorem foldl_proofStep_fst (proof : List GoStr) :
    ∀ (cur : List Nat) (i j : Int),
      (proof.foldl proofStep (cur, i)).1 = (proof.foldl proofStep (cur, j)).1 := by
  induction proof with
  | nil => intro cur i j; rfl
  | cons s rest ih =>
    intro cur i j
    simp only [List.foldl_cons, proofStep_fst]
    exact ih _ _ _

/-! ## Lemmas about hex round-tripping and SHA-256 output bytes -/

theorem hexVal_hexDigit (n : Nat) (h : n < 16) : hexVal (hexDigit n) = some n := by
  unfold hexVal hexDigit
  split_ifs <;> first | omega | (congr 1; omega)

theorem hexDecode_hexEncode (bs : List Nat) (h : ∀ b ∈ bs, b < 256) :
    hexDecode (hexEncode bs) = bs := by
  induction bs with
  | nil => rfl
  | cons b rest ih =>
    have hb : b < 256 := h b (by simp)
    have h1 : b / 16 < 16 := by omega
    have h2 : b % 16 < 16 := by omega
    simp only [hexEncode, hexDecode, hexVal_hexDigit _ h1, hexVal_hexDigit _ h2]
    rw [ih (fun x hx => h x (by simp [hx]))]
    congr 1
    omega

theorem hexDigit_ne_120 (n : Nat) (h : n < 16) : hexDigit n ≠ 120 := by
  unfold hexDigit; split_ifs <;> omega

/-- Normalizing the hex encoding of genuine bytes recovers the bytes: the
encoding never starts with the two characters 0x, and hex decoding inverts
hex encoding. -/
theorem normalizeHash_hexEncode (bs : List Nat) (h : ∀ b ∈ bs, b < 256) :
    normalizeHash (hexEncode bs) = bs := by
  unfold normalizeHash
  have hcond : ¬(2 ≤ (hexEncode bs).length ∧ (hexEncode bs).take 2 = [48, 120]) := by
    cases bs with
    | nil => simp [hexEncode]
    | cons b rest =>
      have hb : b < 256 := h b (by simp)
      have h2 : b % 16 < 16 := by omega
      rintro ⟨-, htake⟩
      simp only [hexEncode, List.take_cons, List.take_zero] at htake
      exact hexDigit_ne_120 _ h2 (by injection htake with _ h'; injection h')
  rw [if_neg hcond]
  exact hexDecode_hexEncode bs h

theorem mem_be32_lt (w b : Nat) (h : b ∈ be32 w) : b < 256 := by
  simp only [be32, List.mem_cons, List.not_mem_nil, or_false] at h
  rcases h with h | h | h | h <;> subst h <;> exact Nat.mod_lt _ (by omega)

/-- Every byte emitted by the embedded SHA-256 is an actual byte value. -/
theorem sha256_lt (ms : List Nat) : ∀ b ∈ sha256 ms, b < 256 := by
  intro b hb
  simp only [sha256, List.mem_flatten, List.mem_map] at hb
  obtain ⟨l, ⟨w, _, hw⟩, hbl⟩ := hb
  exact mem_be32_lt w b (hw ▸ hbl)

theorem hashPair_lt (l r : List Nat) : ∀ b ∈ hashPair l r, b < 256 := by
  unfold hashPair
  split_ifs <;> exact sha256_lt _

/-! ## Length of the SHA-256 digest -/

theorem shaRound_length (st : List Nat) (kw : Nat × Nat) :
    (shaRound st kw).length = st.length := by
  unfold shaRound
  split <;> simp_all

theorem foldl_shaRound_length (kws : List (Nat × Nat)) :
    ∀ st : List Nat, (kws.foldl shaRound st).length = st.length := by
  induction kws with
  | nil => intro st; rfl
  | cons kw rest ih =>
    intro st
    simp only [List.foldl_cons]
    rw [ih, shaRound_length]

theorem compressBlock_length (st block : List Nat) :
    (compressBlock st block).length = st.length := by
  unfold compressBlock
  simp only [List.length_zipWith, foldl_shaRound_length, Nat.min_self]

theorem foldl_compressBlock_length (blocks : List (List Nat)) :
    ∀ st : List Nat, (blocks.foldl compressBlock st).length = st.length := by
  induction blocks with
  | nil => intro st; rfl
  | cons b rest ih =>
    intro st
    simp only [List.foldl_cons]
    rw [ih, compressBlock_length]

theorem flatten_map_be32_length (ws : List Nat) :
    ((ws.map be32).flatten).length = 4 * ws.length := by
  induction ws with
  | nil => rfl
  | cons w rest ih =>
    simp only [List.map_cons, List.flatten_cons, List.length_append, ih, be32,
      List.length_cons, List.length_nil]
    omega

/-- The embedded SHA-256 always produces a 32-byte digest. -/
theorem sha256_length (ms : List Nat) : (sha256 ms).length = 32 := by
  unfold sha256
  rw [flatten_map_be32_length, foldl_compressBlock_length]
  rfl

/-- Verification against a single-element proof path reduces to one sorted
pairwise combine of the leaf with its sibling. -/
theorem verify_single (L0 s root : GoStr) :
    VerifyProofLocally L0 [s] 0 root
      = (hashPair (normalizeHash L0) (normalizeHash s) == normalizeHash root) := by
  unfold VerifyProofLocally
  dsimp only
  rw [List.foldl_cons, List.foldl_nil, proofStep_fst]

/-! ## Claims about the Merkle proof verifier -/

/-- C1: the pairwise combine step sorts its two operands by raw byte value
before concatenating and hashing, making the combine commutative, and
consequently VerifyProofLocally returns the same result whatever leaf index
is supplied: the tracked leaf-index parity has no observable effect. -/
theorem claim_C1_combine_commutative_leaf_index_no_effect
    (a b : List Nat) (contentHash : GoStr) (proof : List GoStr) (i j : Int)
    (merkleRoot : GoStr) :
    hashPair a b = hashPair b a ∧
      VerifyProofLocally contentHash proof i merkleRoot
        = VerifyProofLocally contentHash proof j merkleRoot := by
  refine ⟨hashPair_comm a b, ?_⟩
  unfold VerifyProofLocally
  dsimp only
  rw [foldl_proofStep_fst proof (normalizeHash contentHash) i j]

/-- C6 counterexample: the claim that any root string different from the
content hash string is rejected is false, because normalizeHash strips an
optional 0x prefix: the root 0xab differs from the hash ab as a string yet
verifies against it. -/
theorem claim_C6_counterexample :
    strToBytes "0xab" ≠ strToBytes "ab" ∧
      VerifyProofLocally (strToBytes "ab") [] 0 (strToBytes "0xab") = true := by
  exact ⟨by decide, by decide⟩

/-- C6 amended: for every hash string h, VerifyProofLocally(h, [], 0, h) is
true, and VerifyProofLocally(h, [], 0, r) is false for every root r whose
normalized byte decoding differs from the normalized decoding of h. -/
theorem claim_C6_single_leaf_base_case (h r : GoStr) :
    VerifyProofLocally h [] 0 h = true ∧
      (normalizeHash r ≠ normalizeHash h → VerifyProofLocally h [] 0 r = false) := by
  constructor
  · simp [VerifyProofLocally]
  · intro hne
    unfold VerifyProofLocally
    dsimp only
    rw [List.foldl_nil]
    exact beq_eq_false_iff_ne.2 (fun he => hne he.symm)

/-- C6 witness: the amended theorem applied at the concrete hash ab and the
byte-distinct root cd. -/
theorem claim_C6_witness :
    normalizeHash (strToBytes "cd") ≠ normalizeHash (strToBytes "ab") ∧
      VerifyProofLocally (strToBytes "ab") [] 0 (strToBytes "cd") = false :=
  ⟨by decide, (claim_C6_single_leaf_base_case (strToBytes "ab") (strToBytes "cd")).2 (by decide)⟩

/-- C7 counterexample: a corrupted sibling string that differs from L1 but
decodes to the same bytes (here 0xcd versus cd) still verifies, so the claim
read over raw sibling strings is false. -/
theorem claim_C7_counterexample :
    strToBytes "0xcd" ≠ strToBytes "cd" ∧
      VerifyProofLocally (strToBytes "ab") [strToBytes "0xcd"] 0
        (hexEncode (hashPair (normalizeHash (strToBytes "ab"))
          (normalizeHash (strToBytes "cd")))) = true := by
  exact ⟨by decide, by decide⟩

/-- C7 amended: for leaves L0 and L1 with root the sorted-pair SHA-256
combine of the two decoded leaves, VerifyProofLocally(L0, [L1], 0, root) is
true; and it is false for a corrupted sibling whose sorted-pair combine with
L0 yields a digest different from the root digest. -/
theorem claim_C7_two_leaf_tree (L0 L1 corrupted : GoStr) :
    VerifyProofLocally L0 [L1] 0
        (hexEncode (hashPair (normalizeHash L0) (normalizeHash L1))) = true ∧
      (hashPair (normalizeHash L0) (normalizeHash corrupted)
          ≠ hashPair (normalizeHash L0) (normalizeHash L1) →
        VerifyProofLocally L0 [corrupted] 0
          (hexEncode (hashPair (normalizeHash L0) (normalizeHash L1))) = false) := by
  have hroot := normalizeHash_hexEncode (hashPair (normalizeHash L0) (normalizeHash L1))
    (hashPair_lt _ _)
  constructor
  · rw [verify_single, hroot]
    exact beq_self_eq_true _
  · intro hne
    rw [verify_single, hroot]
    exact beq_eq_false_iff_ne.2 hne

/-- C7 witness: the amended theorem applied at the leaves ab and cd with the
corrupted sibling ce, whose combine digest concretely differs. -/
theorem claim_C7_witness :
    hashPair (normalizeHash (strToBytes "ab")) (normalizeHash (strToBytes "ce"))
        ≠ hashPair (normalizeHash (strToBytes "ab")) (normalizeHash (strToBytes "cd")) ∧
      VerifyProofLocally (strToBytes "ab") [strToBytes "ce"] 0
        (hexEncode (hashPair (normalizeHash (strToBytes "ab"))
          (normalizeHash (strToBytes "cd")))) = false :=
  ⟨by decide,
    (claim_C7_two_leaf_tree (strToBytes "ab") (strToBytes "cd") (strToBytes "ce")).2 (by decide)⟩

/-- C10: VerifyProofLocally never reports malformed input; hex errors are
silently discarded, so whenever the content hash and the root are both
invalid hex from the first byte (each normalizing to the empty byte string)
verification with an empty proof succeeds for every leaf index. -/
theorem claim_C10_malformed_hex_succeeds (contentHash merkleRoot : GoStr) (i : Int)
    (h1 : normalizeHash contentHash = []) (h2 : normalizeHash merkleRoot = [])
    : VerifyProofLocally contentHash [] i merkleRoot = true := by
  unfold VerifyProofLocally
  dsimp only
  rw [List.foldl_nil, h1, h2]
  rfl

/-- C10 witness: the theorem applied at the non-hex strings zz and q!, which
both decode to the empty byte string, with leaf index 7. -/
theorem claim_C10_witness :
    normalizeHash (strToBytes "zz") = [] ∧ normalizeHash (strToBytes "q!") = [] ∧
      VerifyProofLocally (strToBytes "zz") [] 7 (strToBytes "q!") = true :=
  ⟨by decide, by decide, claim_C10_malformed_hex_succeeds _ _ 7 (by decide) (by decide)⟩

/-! ## Decimal round-trip lemmas -/

theorem formatNatAux_mem_digits :
    ∀ fuel n b, b ∈ formatNatAux fuel n → 48 ≤ b ∧ b ≤ 57 := by
  intro fuel
  induction fuel with
  | zero => intro n b hb; simp [formatNatAux] at hb
  | succ f ih =>
    intro n b hb
    unfold formatNatAux at hb
    split_ifs at hb with h10
    · simp only [List.mem_singleton] at hb
      omega
    · rcases List.mem_append.1 hb with h | h
      · exact ih _ _ h
      · simp only [List.mem_singleton] at h
        have : n % 10 < 10 := Nat.mod_lt _ (by omega)
        omega

theorem formatNat_ne_nil (n : Nat) : formatNat n ≠ [] := by
  unfold formatNat formatNatAux
  split_ifs <;> simp

theorem formatInt_ne_nil (t : Int) : formatInt t ≠ [] := by
  unfold formatInt
  split_ifs
  · simp
  · exact formatNat_ne_nil _

theorem digitsVal_formatNatAux :
    ∀ fuel n, n < fuel → digitsVal (formatNatAux fuel n) = n := by
  intro fuel
  induction fuel with
  | zero => intro n h; omega
  | succ f ih =>
    intro n h
    unfold formatNatAux
    split_ifs with h10
    · unfold digitsVal
      simp only [List.foldl_cons, List.foldl_nil]
      omega
    · have hdiv : n / 10 < f := by
        have := Nat.div_lt_self (show 0 < n by omega) (show 1 < 10 by omega)
        omega
      have hpre := ih (n / 10) hdiv
      unfold digitsVal at hpre ⊢
      rw [List.foldl_append, hpre]
      simp only [List.foldl_cons, List.foldl_nil]
      omega

theorem formatNat_all_digits (n : Nat) :
    (formatNat n).all (fun b => 48 ≤ b && b ≤ 57) = true := by
  rw [List.all_eq_true]
  intro b hb
  have := formatNatAux_mem_digits _ _ b hb
  simp only [decide_eq_true_eq, Bool.and_eq_true]
  exact ⟨by omega, by omega⟩

theorem digitsVal_formatNat (n : Nat) : digitsVal (formatNat n) = n :=
  digitsVal_formatNatAux _ _ (Nat.lt_succ_self n)

theorem formatNat_mem_digits (n b : Nat) (h : b ∈ formatNat n) : 48 ≤ b ∧ b ≤ 57 :=
  formatNatAux_mem_digits _ _ b h

theorem parseDigitsSigned_formatNat_true (n : Nat) (h : n ≤ 9223372036854775808) :
    parseDigitsSigned true (formatNat n) = some (-(n : Int)) := by
  unfold parseDigitsSigned
  rw [if_neg (formatNat_ne_nil n), if_pos (formatNat_all_digits n), if_pos rfl]
  rw [digitsVal_formatNat, if_pos h]

theorem parseDigitsSigned_formatNat_false (n : Nat) (h : n ≤ 9223372036854775807) :
    parseDigitsSigned false (formatNat n) = some ((n : Int)) := by
  unfold parseDigitsSigned
  rw [if_neg (formatNat_ne_nil n), if_pos (formatNat_all_digits n),
    if_neg (show ¬(false = true) by simp)]
  rw [digitsVal_formatNat, if_pos h]

/-- Round trip of the strconv pair: parsing the formatted decimal string of
any signed 64-bit value gives the value back. -/
theorem parseIntGo_formatInt (t : Int)
    (h1 : -9223372036854775808 ≤ t) (h2 : t ≤ 9223372036854775807) :
    parseIntGo (formatInt t) = some t := by
  unfold formatInt
  split_ifs with hneg
  · show parseDigitsSigned true (formatNat t.natAbs) = some t
    rw [parseDigitsSigned_formatNat_true t.natAbs (by omega)]
    congr 1
    omega
  · rcases hfn : formatNat t.toNat with _ | ⟨c, rest⟩
    · exact absurd hfn (formatNat_ne_nil _)
    · have hmem : c ∈ formatNat t.toNat := by
        rw [hfn]; exact List.mem_cons_self _ _
      have hc : 48 ≤ c ∧ c ≤ 57 := formatNat_mem_digits _ _ hmem
      show (if c = 45 then parseDigitsSigned true rest
        else if c = 43 then parseDigitsSigned false rest
        else parseDigitsSigned false (c :: rest)) = some t
      rw [if_neg (by omega), if_neg (by omega), ← hfn]
      rw [parseDigitsSigned_formatNat_false t.toNat (by omega)]
      congr 1
      omega

/-! ## Constant-time comparison lemmas -/

theorem lor_eq_zero {a b : Nat} (h : a ||| b = 0) : a = 0 ∧ b = 0 := by
  constructor <;>
  · apply Nat.eq_of_testBit_eq
    intro i
    have h2 : (a ||| b).testBit i = false := by rw [h]; exact Nat.zero_testBit i
    rw [Nat.testBit_lor] at h2
    simp only [Bool.or_eq_false_iff] at h2
    simp [h2.1, h2.2, Nat.zero_testBit]

theorem foldl_lor_eq_zero_iff (l : List Nat) :
    ∀ acc, l.foldl Nat.lor acc = 0 ↔ acc = 0 ∧ ∀ b ∈ l, b = 0 := by
  induction l with
  | nil => intro acc; simp
  | cons x t ih =>
    intro acc
    rw [List.foldl_cons, ih]
    constructor
    · rintro ⟨h1, h2⟩
      obtain ⟨ha, hx⟩ := lor_eq_zero h1
      exact ⟨ha, by
        intro b hb
        rcases List.mem_cons.1 hb with h | h
        · rw [h, hx]
        · exact h2 b h⟩
    · rintro ⟨ha, hall⟩
      refine ⟨?_, fun b hb => hall b (List.mem_cons_of_mem _ hb)⟩
      rw [ha, hall x (List.mem_cons_self _ _)]
      rfl

theorem eq_of_zipWith_xor_zero (x : List Nat) :
    ∀ y : List Nat, x.length = y.length →
      (∀ b ∈ List.zipWith Nat.xor x y, b = 0) → x = y := by
  induction x with
  | nil =>
    intro y hlen _
    exact (List.eq_nil_of_length_eq_zero hlen.symm).symm
  | cons a t ih =>
    intro y hlen hall
    cases y with
    | nil => simp at hlen
    | cons c s =>
      have hhead : a ^^^ c = 0 :=
        hall _ (by rw [List.zipWith_cons_cons]; exact List.mem_cons_self _ _)
      have htail := ih s (by simpa using hlen)
        (fun b hb => hall b (by rw [List.zipWith_cons_cons]; exact List.mem_cons_of_mem _ hb))
      rw [Nat.xor_eq_zero.1 hhead, htail]

theorem zipWith_xor_self_zero (y : List Nat) :
    ∀ b ∈ List.zipWith Nat.xor y y, b = 0 := by
  induction y with
  | nil => simp
  | cons a t ih =>
    intro b hb
    rw [List.zipWith_cons_cons] at hb
    rcases List.mem_cons.1 hb with h | h
    · rw [h]; exact Nat.xor_self a
    · exact ih b h

/-- The subtle ConstantTimeCompare returns 1 exactly on equal byte strings
(including equal length). -/
theorem constantTimeCompare_eq_one_iff (x y : List Nat) :
    constantTimeCompare x y = 1 ↔ x = y := by
  unfold constantTimeCompare
  by_cases hlen : x.length ≠ y.length
  · rw [if_pos hlen]
    exact iff_of_false (by omega) (fun he => hlen (by rw [he]))
  · push_neg at hlen
    rw [if_neg (by omega)]
    by_cases hf : (List.zipWith Nat.xor x y).foldl Nat.lor 0 = 0
    · rw [if_pos hf]
      refine iff_of_true rfl ?_
      exact eq_of_zipWith_xor_zero x y hlen ((foldl_lor_eq_zero_iff _ 0).1 hf).2
    · rw [if_neg hf]
      refine iff_of_false (by omega) (fun he => hf ?_)
      subst he
      exact (foldl_lor_eq_zero_iff _ 0).2 ⟨rfl, zipWith_xor_self_zero x⟩

/-! ## Miscellaneous facts feeding the authenticator proofs -/

theorem int64Wrap_eq_self (z : Int)
    (h1 : -9223372036854775808 ≤ z) (h2 : z < 9223372036854775808) :
    int64Wrap z = z := by
  unfold int64Wrap
  rw [Int.emod_eq_of_lt (by omega) (by omega)]
  omega

theorem hexEncode_ne_nil (bs : List Nat) (h : bs ≠ []) : hexEncode bs ≠ [] := by
  cases bs with
  | nil => exact absurd rfl h
  | cons b t => simp [hexEncode]

theorem sha256_ne_nil (ms : List Nat) : sha256 ms ≠ [] := by
  intro h
  have := sha256_length ms
  rw [h] at this
  simp at this

theorem hmacSha256_ne_nil (key msg : List Nat) : hmacSha256 key msg ≠ [] := by
  unfold hmacSha256
  exact sha256_ne_nil _

/-- GenerateSignature with an explicit timestamp, written out. -/
theorem GenerateSignature_some (secret body : GoStr) (T now : Int) :
    GenerateSignature secret body (some T) now
      = (hexEncode (hmacSha256 secret (formatInt T ++ [46] ++ body)), formatInt T) := rfl

/-! ## Step lemmas tracing the check cascade of VerifySignature -/

theorem verify_config_error (secret body : GoStr) (headers : Headers) (now : Int)
    (h : secret = []) :
    VerifySignature secret body headers now
      = .error ⟨"webhook secret not configured"⟩ := by
  unfold VerifySignature
  rw [if_pos h]

theorem verify_missing_sig (secret body : GoStr) (headers : Headers) (now : Int)
    (h1 : secret ≠ [])
    (h2 : headerLookup headers "X-Kiket-Signature" "x-kiket-signature" = []) :
    VerifySignature secret body headers now
      = .error ⟨"missing X-Kiket-Signature header"⟩ := by
  unfold VerifySignature
  rw [if_neg h1]
  dsimp only
  rw [if_pos h2]

theorem verify_missing_ts (secret body : GoStr) (headers : Headers) (now : Int)
    (h1 : secret ≠ [])
    (h2 : headerLookup headers "X-Kiket-Signature" "x-kiket-signature" ≠ [])
    (h3 : headerLookup headers "X-Kiket-Timestamp" "x-kiket-timestamp" = []) :
    VerifySignature secret body headers now
      = .error ⟨"missing X-Kiket-Timestamp header"⟩ := by
  unfold VerifySignature
  rw [if_neg h1]
  dsimp only
  rw [if_neg h2, if_pos h3]

theorem verify_invalid_ts (secret body : GoStr) (headers : Headers) (now : Int)
    (h1 : secret ≠ [])
    (h2 : headerLookup headers "X-Kiket-Signature" "x-kiket-signature" ≠ [])
    (h3 : headerLookup headers "X-Kiket-Timestamp" "x-kiket-timestamp" ≠ [])
    (h4 : parseIntGo (headerLookup headers "X-Kiket-Timestamp" "x-kiket-timestamp") = none) :
    VerifySignature secret body headers now
      = .error ⟨"invalid X-Kiket-Timestamp header"⟩ := by
  unfold VerifySignature
  rw [if_neg h1]
  dsimp only
  rw [if_neg h2, if_neg h3, h4]

theorem parseIntGo_nil : parseIntGo [] = none := rfl

theorem ts_ne_nil_of_parse_some (headers : Headers) (T : Int)
    (hp : parseIntGo (headerLookup headers "X-Kiket-Timestamp" "x-kiket-timestamp") = some T) :
    headerLookup headers "X-Kiket-Timestamp" "x-kiket-timestamp" ≠ [] := by
  intro he
  rw [he, parseIntGo_nil] at hp
  exact Option.noConfusion hp

theorem verify_freshness_error (secret body : GoStr) (headers : Headers) (now T : Int)
    (h1 : secret ≠ [])
    (h2 : headerLookup headers "X-Kiket-Signature" "x-kiket-signature" ≠ [])
    (hp : parseIntGo (headerLookup headers "X-Kiket-Timestamp" "x-kiket-timestamp") = some T)
    (hd : 300 < (int64Wrap (now - T)).natAbs) :
    VerifySignature secret body headers now
      = .error ⟨"request timestamp too old or too far in future: "
          ++ toString (int64Wrap (now - T)).natAbs ++ "s"⟩ := by
  unfold VerifySignature
  rw [if_neg h1]
  dsimp only
  rw [if_neg h2, if_neg (ts_ne_nil_of_parse_some headers T hp), hp]
  dsimp only
  rw [if_pos hd]

theorem verify_fresh_result (secret body : GoStr) (headers : Headers) (now T : Int)
    (h1 : secret ≠ [])
    (h2 : headerLookup headers "X-Kiket-Signature" "x-kiket-signature" ≠ [])
    (hp : parseIntGo (headerLookup headers "X-Kiket-Timestamp" "x-kiket-timestamp") = some T)
    (hd : ¬ 300 < (int64Wrap (now - T)).natAbs) :
    VerifySignature secret body headers now
      = (if constantTimeCompare (headerLookup headers "X-Kiket-Signature" "x-kiket-signature")
            (expectedSignatureFor secret body headers) ≠ 1
         then .error ⟨"invalid signature"⟩ else .ok ()) := by
  unfold VerifySignature
  rw [if_neg h1]
  dsimp only
  rw [if_neg h2, if_neg (ts_ne_nil_of_parse_some headers T hp), hp]
  dsimp only
  rw [if_neg hd]
  rfl

theorem verify_integrity_error (secret body : GoStr) (headers : Headers) (now T : Int)
    (h1 : secret ≠ [])
    (h2 : headerLookup headers "X-Kiket-Signature" "x-kiket-signature" ≠ [])
    (hp : parseIntGo (headerLookup headers "X-Kiket-Timestamp" "x-kiket-timestamp") = some T)
    (hd : ¬ 300 < (int64Wrap (now - T)).natAbs)
    (hne : headerLookup headers "X-Kiket-Signature" "x-kiket-signature"
        ≠ expectedSignatureFor secret body headers) :
    VerifySignature secret body headers now = .error ⟨"invalid signature"⟩ := by
  rw [verify_fresh_result secret body headers now T h1 h2 hp hd]
  rw [if_pos (fun hc => hne ((constantTimeCompare_eq_one_iff _ _).1 hc))]

theorem verify_success (secret body : GoStr) (headers : Headers) (now T : Int)
    (h1 : secret ≠ [])
    (h2 : headerLookup headers "X-Kiket-Signature" "x-kiket-signature" ≠ [])
    (hp : parseIntGo (headerLookup headers "X-Kiket-Timestamp" "x-kiket-timestamp") = some T)
    (hd : ¬ 300 < (int64Wrap (now - T)).natAbs)
    (heq : headerLookup headers "X-Kiket-Signature" "x-kiket-signature"
        = expectedSignatureFor secret body headers) :
    VerifySignature secret body headers now = .ok () := by
  rw [verify_fresh_result secret body headers now T h1 h2 hp hd]
  rw [if_neg (not_not_intro ((constantTimeCompare_eq_one_iff _ _).2 heq))]

/-- The header value VerifySignature examines is empty exactly when both of
the two consulted spellings are absent from the bag. -/
theorem headerLookup_eq_nil_iff (headers : Headers) (c l : String) :
    headerLookup headers c l = [] ↔ (headers c = [] ∧ headers l = []) := by
  unfold headerLookup
  by_cases h : headers c = []
  · rw [if_pos h]
    simp [h]
  · rw [if_neg h]
    simp [h]

/-! ## Claims about the webhook authenticator -/

/-- C2 counterexample: the round trip fails for the empty secret, one of the
quantified secrets of the claim: even with headers carrying exactly the
signature and timestamp produced by GenerateSignature, VerifySignature
rejects with the configuration error before reaching the signature check. -/
theorem claim_C2_counterexample :
    VerifySignature [] [98]
      (headersOf [("X-Kiket-Signature", (GenerateSignature [] [98] (some 0) 0).1),
                  ("X-Kiket-Timestamp", (GenerateSignature [] [98] (some 0) 0).2)]) 0
      = .error ⟨"webhook secret not configured"⟩ :=
  verify_config_error _ _ _ _ rfl

/-- C2 amended: for every nonempty secret S, body B, and 64-bit timestamp T
within the freshness window of now, VerifySignature succeeds whenever the
headers carry the signature and timestamp string produced by
GenerateSignature(S, B, T), both sides building the message byte for byte as
timestamp dot body. -/
theorem claim_C2_generate_verify_roundtrip (secret body : GoStr) (headers : Headers)
    (T now : Int)
    (hsec : secret ≠ [])
    (hT1 : -9223372036854775808 ≤ T) (hT2 : T ≤ 9223372036854775807)
    (hwin : (now - T).natAbs ≤ 300)
    (hsig : headerLookup headers "X-Kiket-Signature" "x-kiket-signature"
        = (GenerateSignature secret body (some T) now).1)
    (hts : headerLookup headers "X-Kiket-Timestamp" "x-kiket-timestamp"
        = (GenerateSignature secret body (some T) now).2) :
    VerifySignature secret body headers now = .ok () := by
  rw [GenerateSignature_some] at hsig hts
  apply verify_success secret body headers now T hsec
  · rw [hsig]
    exact hexEncode_ne_nil _ (hmacSha256_ne_nil _ _)
  · rw [hts]
    exact parseIntGo_formatInt T hT1 hT2
  · rw [int64Wrap_eq_self _ (by omega) (by omega)]
    omega
  · rw [hsig]
    unfold expectedSignatureFor
    rw [hts]

/-- C2 witness: the amended round trip at the concrete secret s, body b, and
timestamp 5 with the clock at 5. -/
theorem claim_C2_witness :
    VerifySignature [115] [98]
      (headersOf [("X-Kiket-Signature", (GenerateSignature [115] [98] (some 5) 5).1),
                  ("X-Kiket-Timestamp", (GenerateSignature [115] [98] (some 5) 5).2)]) 5
      = .ok () :=
  claim_C2_generate_verify_roundtrip [115] [98] _ 5 5 (by decide) (by decide) (by decide)
    (by decide) (by rfl) (by rfl)

/-- C3: with the earlier checks passing and a parsed timestamp T, a time
difference of exactly 300 seconds proceeds to the signature check (success
on a matching signature, the integrity error on a mismatch), while any
difference of 301 seconds or more is rejected with the freshness error even
when the signature is valid; the bound is symmetric in the sign of the
difference since only its absolute value is examined. -/
theorem claim_C3_freshness_window (secret body : GoStr) (headers : Headers) (now T : Int)
    (hsec : secret ≠ [])
    (hsig : headerLookup headers "X-Kiket-Signature" "x-kiket-signature" ≠ [])
    (hp : parseIntGo (headerLookup headers "X-Kiket-Timestamp" "x-kiket-timestamp") = some T)
    (hr1 : -9223372036854775808 ≤ now - T) (hr2 : now - T < 9223372036854775808) :
    ((now - T).natAbs = 300 →
      headerLookup headers "X-Kiket-Signature" "x-kiket-signature"
          = expectedSignatureFor secret body headers →
      VerifySignature secret body headers now = .ok ()) ∧
    ((now - T).natAbs = 300 →
      headerLookup headers "X-Kiket-Signature" "x-kiket-signature"
          ≠ expectedSignatureFor secret body headers →
      VerifySignature secret body headers now = .error ⟨"invalid signature"⟩) ∧
    (300 < (now - T).natAbs →
      VerifySignature secret body headers now
        = .error ⟨"request timestamp too old or too far in future: "
            ++ toString (now - T).natAbs ++ "s"⟩) := by
  have hwrap : int64Wrap (now - T) = now - T := int64Wrap_eq_self _ hr1 hr2
  refine ⟨fun h300 heq => ?_, fun h300 hne => ?_, fun hgt => ?_⟩
  · exact verify_success secret body headers now T hsec hsig hp (by rw [hwrap]; omega) heq
  · exact verify_integrity_error secret body headers now T hsec hsig hp
      (by rw [hwrap]; omega) hne
  · have h := verify_freshness_error secret body headers now T hsec hsig hp
      (by rw [hwrap]; omega)
    rw [hwrap] at h
    exact h

/-- C3 witness: with a valid signature over timestamp 0, the clock at 300
succeeds and the clock at 301 fails with the freshness error carrying the
difference 301. -/
theorem claim_C3_witness :
    VerifySignature [115] [] validHeaders 300 = .ok () ∧
    VerifySignature [115] [] validHeaders 301
      = .error ⟨"request timestamp too old or too far in future: "
          ++ toString ((301 - 0 : Int)).natAbs ++ "s"⟩ :=
  ⟨(claim_C3_freshness_window [115] [] validHeaders 300 0 (by decide) (by decide)
      (by decide) (by decide) (by decide)).1 (by decide) (by rfl),
   (claim_C3_freshness_window [115] [] validHeaders 301 0 (by decide) (by decide)
      (by decide) (by decide) (by decide)).2.2 (by decide)⟩

/-- C4 counterexample: two failures the specification assigns to different
kinds, the configuration error for an empty secret and the protocol error
for a missing signature header, are values of the one-field type
AuthenticationError: once the message strings are overwritten with the same
text the two outcomes are identical values, so nothing but the message
string distinguishes the kinds. -/
theorem claim_C4_counterexample :
    VerifySignature [] [] (headersOf []) 0 = .error ⟨"webhook secret not configured"⟩ ∧
    VerifySignature [115] [] (headersOf []) 0
      = .error ⟨"missing X-Kiket-Signature header"⟩ ∧
    (match VerifySignature [] [] (headersOf []) 0 with
      | .error e => ({ e with message := "" } : AuthenticationError)
      | .ok _ => ⟨"ok"⟩)
    = (match VerifySignature [115] [] (headersOf []) 0 with
      | .error e => ({ e with message := "" } : AuthenticationError)
      | .ok _ => ⟨"ok"⟩) :=
  ⟨rfl, rfl, rfl⟩

/-- C4 amended: the outcome of VerifySignature is never partially
successful: it is either the opaque success or an AuthenticationError whose
message is one of six fixed texts, the freshness text parametrized by the
absolute difference; the kinds of the specification map onto these message
texts and are distinguishable only by reading the message. -/
theorem claim_C4_closed_outcome_set (secret body : GoStr) (headers : Headers) (now : Int) :
    VerifySignature secret body headers now = .ok () ∨
    VerifySignature secret body headers now = .error ⟨"webhook secret not configured"⟩ ∨
    VerifySignature secret body headers now = .error ⟨"missing X-Kiket-Signature header"⟩ ∨
    VerifySignature secret body headers now = .error ⟨"missing X-Kiket-Timestamp header"⟩ ∨
    VerifySignature secret body headers now = .error ⟨"invalid X-Kiket-Timestamp header"⟩ ∨
    (∃ d : Nat, 300 < d ∧ VerifySignature secret body headers now
        = .error ⟨"request timestamp too old or too far in future: " ++ toString d ++ "s"⟩) ∨
    VerifySignature secret body headers now = .error ⟨"invalid signature"⟩ := by
  by_cases h1 : secret = []
  · exact Or.inr (Or.inl (verify_config_error _ _ _ _ h1))
  by_cases h2 : headerLookup headers "X-Kiket-Signature" "x-kiket-signature" = []
  · exact Or.inr (Or.inr (Or.inl (verify_missing_sig _ _ _ _ h1 h2)))
  by_cases h3 : headerLookup headers "X-Kiket-Timestamp" "x-kiket-timestamp" = []
  · exact Or.inr (Or.inr (Or.inr (Or.inl (verify_missing_ts _ _ _ _ h1 h2 h3))))
  cases hp : parseIntGo (headerLookup headers "X-Kiket-Timestamp" "x-kiket-timestamp") with
  | none =>
    exact Or.inr (Or.inr (Or.inr (Or.inr (Or.inl (verify_invalid_ts _ _ _ _ h1 h2 h3 hp)))))
  | some T =>
    by_cases hd : 300 < (int64Wrap (now - T)).natAbs
    · exact Or.inr (Or.inr (Or.inr (Or.inr (Or.inr (Or.inl
        ⟨(int64Wrap (now - T)).natAbs, hd, verify_freshness_error _ _ _ _ T h1 h2 hp hd⟩)))))
    · by_cases heq : headerLookup headers "X-Kiket-Signature" "x-kiket-signature"
          = expectedSignatureFor secret body headers
      · exact Or.inl (verify_success _ _ _ _ T h1 h2 hp hd heq)
      · exact Or.inr (Or.inr (Or.inr (Or.inr (Or.inr (Or.inr
          (verify_integrity_error _ _ _ _ T h1 h2 hp hd heq))))))

/-- C5: the checks run in the fixed order empty secret, missing signature
header, missing timestamp header, unparsable timestamp, freshness window,
and HMAC comparison; the first failing check determines the error while
later checks are not consulted, and when every check passes the result is
the opaque success. -/
theorem claim_C5_check_order (secret body : GoStr) (headers : Headers) (now : Int) :
    (secret = [] →
      VerifySignature secret body headers now
        = .error ⟨"webhook secret not configured"⟩) ∧
    (secret ≠ [] →
      headerLookup headers "X-Kiket-Signature" "x-kiket-signature" = [] →
      VerifySignature secret body headers now
        = .error ⟨"missing X-Kiket-Signature header"⟩) ∧
    (secret ≠ [] →
      headerLookup headers "X-Kiket-Signature" "x-kiket-signature" ≠ [] →
      headerLookup headers "X-Kiket-Timestamp" "x-kiket-timestamp" = [] →
      VerifySignature secret body headers now
        = .error ⟨"missing X-Kiket-Timestamp header"⟩) ∧
    (secret ≠ [] →
      headerLookup headers "X-Kiket-Signature" "x-kiket-signature" ≠ [] →
      headerLookup headers "X-Kiket-Timestamp" "x-kiket-timestamp" ≠ [] →
      parseIntGo (headerLookup headers "X-Kiket-Timestamp" "x-kiket-timestamp") = none →
      VerifySignature secret body headers now
        = .error ⟨"invalid X-Kiket-Timestamp header"⟩) ∧
    (∀ T : Int, secret ≠ [] →
      headerLookup headers "X-Kiket-Signature" "x-kiket-signature" ≠ [] →
      parseIntGo (headerLookup headers "X-Kiket-Timestamp" "x-kiket-timestamp") = some T →
      300 < (int64Wrap (now - T)).natAbs →
      VerifySignature secret body headers now
        = .error ⟨"request timestamp too old or too far in future: "
            ++ toString (int64Wrap (now - T)).natAbs ++ "s"⟩) ∧
    (∀ T : Int, secret ≠ [] →
      headerLookup headers "X-Kiket-Signature" "x-kiket-signature" ≠ [] →
      parseIntGo (headerLookup headers "X-Kiket-Timestamp" "x-kiket-timestamp") = some T →
      ¬ 300 < (int64Wrap (now - T)).natAbs →
      headerLookup headers "X-Kiket-Signature" "x-kiket-signature"
          ≠ expectedSignatureFor secret body headers →
      VerifySignature secret body headers now = .error ⟨"invalid signature"⟩) ∧
    (∀ T : Int, secret ≠ [] →
      headerLookup headers "X-Kiket-Signature" "x-kiket-signature" ≠ [] →
      parseIntGo (headerLookup headers "X-Kiket-Timestamp" "x-kiket-timestamp") = some T →
      ¬ 300 < (int64Wrap (now - T)).natAbs →
      headerLookup headers "X-Kiket-Signature" "x-kiket-signature"
          = expectedSignatureFor secret body headers →
      VerifySignature secret body headers now = .ok ()) :=
  ⟨fun h1 => verify_config_error _ _ _ _ h1,
   fun h1 h2 => verify_missing_sig _ _ _ _ h1 h2,
   fun h1 h2 h3 => verify_missing_ts _ _ _ _ h1 h2 h3,
   fun h1 h2 h3 h4 => verify_invalid_ts _ _ _ _ h1 h2 h3 h4,
   fun T h1 h2 hp hd => verify_freshness_error _ _ _ _ T h1 h2 hp hd,
   fun T h1 h2 hp hd hne => verify_integrity_error _ _ _ _ T h1 h2 hp hd hne,
   fun T h1 h2 hp hd heq => verify_success _ _ _ _ T h1 h2 hp hd heq⟩

/-- C5 witness: the cascade applied at concrete inputs exercising the first
failing check for the empty secret, the missing signature header, the
unparsable timestamp, and the success case. -/
theorem claim_C5_witness :
    VerifySignature [] [] (headersOf []) 0 = .error ⟨"webhook secret not configured"⟩ ∧
    VerifySignature [115] [] (headersOf []) 0
      = .error ⟨"missing X-Kiket-Signature header"⟩ ∧
    VerifySignature [115] [] invalidTsHeaders 0
      = .error ⟨"invalid X-Kiket-Timestamp header"⟩ ∧
    VerifySignature [115] [] validHeaders 0 = .ok () :=
  ⟨(claim_C5_check_order [] [] (headersOf []) 0).1 rfl,
   (claim_C5_check_order [115] [] (headersOf []) 0).2.1 (by decide) (by decide),
   (claim_C5_check_order [115] [] invalidTsHeaders 0).2.2.2.1 (by decide) (by decide)
     (by decide) (by decide),
   (claim_C5_check_order [115] [] validHeaders 0).2.2.2.2.2.2 0 (by decide) (by decide)
     (by decide) (by decide) (by rfl)⟩

/-- C9 counterexample: header-name matching is not case-insensitive: a
signature supplied only under the all-uppercase name is present under
case-insensitive matching yet VerifySignature reports the missing-header
protocol error. -/
theorem claim_C9_counterexample :
    headersOf [("X-KIKET-SIGNATURE", strToBytes "aa")] "X-KIKET-SIGNATURE" ≠ [] ∧
    VerifySignature [115] [] (headersOf [("X-KIKET-SIGNATURE", strToBytes "aa")]) 0
      = .error ⟨"missing X-Kiket-Signature header"⟩ :=
  ⟨by decide, by decide⟩

/-- C9 amended: each header is looked up under exactly two spellings, the
canonical mixed-case name and the all-lowercase name: the value examined is
empty precisely when both spellings are absent, and only then is the
missing-header error returned; any other casing is not consulted. -/
theorem claim_C9_two_spellings (secret body : GoStr) (headers : Headers) (now : Int)
    (hsec : secret ≠ []) :
    (headerLookup headers "X-Kiket-Signature" "x-kiket-signature" = [] ↔
      (headers "X-Kiket-Signature" = [] ∧ headers "x-kiket-signature" = [])) ∧
    (headerLookup headers "X-Kiket-Signature" "x-kiket-signature" = [] →
      VerifySignature secret body headers now
        = .error ⟨"missing X-Kiket-Signature header"⟩) ∧
    (headerLookup headers "X-Kiket-Timestamp" "x-kiket-timestamp" = [] ↔
      (headers "X-Kiket-Timestamp" = [] ∧ headers "x-kiket-timestamp" = [])) ∧
    (headerLookup headers "X-Kiket-Signature" "x-kiket-signature" ≠ [] →
      headerLookup headers "X-Kiket-Timestamp" "x-kiket-timestamp" = [] →
      VerifySignature secret body headers now
        = .error ⟨"missing X-Kiket-Timestamp header"⟩) :=
  ⟨headerLookup_eq_nil_iff headers _ _,
   fun h => verify_missing_sig _ _ _ _ hsec h,
   headerLookup_eq_nil_iff headers _ _,
   fun h2 h3 => verify_missing_ts _ _ _ _ hsec h2 h3⟩

/-- C9 witness: a signature supplied only under the all-lowercase spelling
is found, so the verifier proceeds to the next check and reports the
missing timestamp header. -/
theorem claim_C9_witness :
    VerifySignature [115] [] (headersOf [("x-kiket-signature", strToBytes "aa")]) 0
      = .error ⟨"missing X-Kiket-Timestamp header"⟩ :=
  (claim_C9_two_spellings [115] [] (headersOf [("x-kiket-signature", strToBytes "aa")]) 0
    (by decide)).2.2.2 (by decide) (by decide)

/-! ## Claims about the canonical content hash -/

theorem compareBytes_le_trans :
    ∀ a b c : List Nat, compareBytes a b ≤ 0 → compareBytes b c ≤ 0 → compareBytes a c ≤ 0 := by
  intro a
  induction a with
  | nil =>
    intro b c _ _
    cases c <;> simp [compareBytes]
  | cons x xs ih =>
    intro b c h1 h2
    cases b with
    | nil =>
      simp only [compareBytes] at h1
      omega
    | cons y ys =>
      cases c with
      | nil =>
        simp only [compareBytes] at h2 ⊢
        omega
      | cons z zs =>
        simp only [compareBytes] at h1 h2 ⊢
        split_ifs at h1 h2 ⊢ <;> first | omega | exact ih ys zs h1 h2

instance : IsTotal GoStr byteLe :=
  ⟨fun a b => by
    unfold byteLe
    rcases le_or_lt (compareBytes a b) 0 with h | h
    · exact Or.inl h
    · refine Or.inr ?_
      rw [compareBytes_swap]
      omega⟩

instance : IsTrans GoStr byteLe := ⟨fun a b c => compareBytes_le_trans a b c⟩

instance : IsAntisymm GoStr byteLe :=
  ⟨fun a b h1 h2 => by
    have hs : compareBytes b a = -compareBytes a b := compareBytes_swap a b
    exact (compareBytes_eq_zero_iff a b).1 (by unfold byteLe at h1 h2; omega)⟩

/-- Looking for a key with find? is invariant under permutation of an entry
list whose keys are unique. -/
theorem find?_perm_of_nodup (k : GoStr) (l1 l2 : List (GoStr × Json))
    (hperm : l1.Perm l2) :
    (l1.map Prod.fst).Nodup →
      l1.find? (fun p => p.1 == k) = l2.find? (fun p => p.1 == k) := by
  induction hperm with
  | nil => intro _; rfl
  | cons x h ih =>
    intro hnd
    cases hx : (x.1 == k) with
    | true => simp [List.find?_cons, hx]
    | false =>
      simp only [List.find?_cons, hx]
      exact ih (by simp only [List.map_cons, List.nodup_cons] at hnd; exact hnd.2)
  | swap x y l =>
    intro hnd
    cases hy : (y.1 == k) with
    | false =>
      cases hx : (x.1 == k) with
      | false => simp [List.find?_cons, hy, hx]
      | true => simp [List.find?_cons, hy, hx]
    | true =>
      cases hx : (x.1 == k) with
      | false => simp [List.find?_cons, hy, hx]
      | true =>
        exfalso
        have hne := (List.nodup_cons.1 (by simpa only [List.map_cons] using hnd)).1
        apply hne
        have hxy : y.1 = x.1 := (eq_of_beq hy).trans (eq_of_beq hx).symm
        rw [hxy]
        exact List.mem_cons_self _ _
  | trans h12 h23 ih12 ih23 =>
    intro hnd
    exact (ih12 hnd).trans (ih23 (((h12.map Prod.fst).nodup_iff).1 hnd))

/-- Indexing the represented Go map is invariant under reordering of the
entries when the keys are unique. -/
theorem lookupGo_perm (k : GoStr) (l1 l2 : List (GoStr × Json))
    (hperm : l1.Perm l2) (hnd : (l1.map Prod.fst).Nodup) :
    lookupGo k l1 = lookupGo k l2 := by
  unfold lookupGo
  rw [find?_perm_of_nodup k l1 l2 hperm hnd]

/-- C8: ComputeContentHash is invariant under top-level key reordering:
presenting the same key-value pairs in any order (a permutation of the
entries of a map with unique keys) yields the identical hash string,
because the top-level keys are sorted bytewise before the canonical
serialization, SHA-256, and the 0x lowercase hex encoding. -/
theorem claim_C8_content_hash_key_order_invariant (data1 data2 : List (GoStr × Json))
    (hperm : data1.Perm data2) (hnd : (data1.map Prod.fst).Nodup) :
    ComputeContentHash data1 = ComputeContentHash data2 := by
  unfold ComputeContentHash
  dsimp only
  have hkeys : List.insertionSort byteLe (data1.map Prod.fst)
      = List.insertionSort byteLe (data2.map Prod.fst) :=
    List.eq_of_perm_of_sorted
      ((List.perm_insertionSort _ _).trans ((hperm.map Prod.fst).trans
        (List.perm_insertionSort _ _).symm))
      (List.sorted_insertionSort _ _) (List.sorted_insertionSort _ _)
  rw [hkeys]
  have hmap : (List.insertionSort byteLe (data2.map Prod.fst)).map
        (fun k => (k, lookupGo k data1))
      = (List.insertionSort byteLe (data2.map Prod.fst)).map
        (fun k => (k, lookupGo k data2)) :=
    List.map_congr_left (fun k _ => by rw [lookupGo_perm k data1 data2 hperm hnd])
  rw [hmap]

/-- C8 witness: the mapping with entries a maps to 1 and b maps to 2,
presented in both orders, has unique keys and hashes identically. -/
theorem claim_C8_witness :
    [(strToBytes "a", Json.num 1), (strToBytes "b", Json.num 2)].Perm
        [(strToBytes "b", Json.num 2), (strToBytes "a", Json.num 1)] ∧
    (([(strToBytes "a", Json.num 1), (strToBytes "b", Json.num 2)]).map Prod.fst).Nodup ∧
    ComputeContentHash [(strToBytes "a", Json.num 1), (strToBytes "b", Json.num 2)]
      = ComputeContentHash [(strToBytes "b", Json.num 2), (strToBytes "a", Json.num 1)] :=
  ⟨List.Perm.swap _ _ _, by decide,
   claim_C8_content_hash_key_order_invariant _ _ (List.Perm.swap _ _ _) (by decide)⟩

end KiketSDK
